import Mathlib

/-!
anekazoo: CRUD handlers over the `animals` table.

A shallow embedding of `main.go`.  The five HTTP handlers are pure functions
from the store state (and the request's path id / body) to a response and the
next store state.  The store is the `animals` table that `migrateDB` creates:

    id SERIAL PRIMARY KEY, name VARCHAR(50) NOT NULL UNIQUE,
    class VARCHAR(50) NOT NULL, legs INT NOT NULL

together with the sequence that feeds `id`.  Statement parameters travel as
text, as the driver sends them, and are read by the store with the column's
type: a path id is parsed by the store's integer input, a Go `int` (64 bit)
must fit the 32-bit `INT`, text must not hold a NUL character, and text
assigned to `VARCHAR(50)` must fit 50 characters once trailing blanks beyond
the limit are cut.  Connection loss and other failures outside the statements'
own semantics are not part of the model.
-/

namespace AnekaZoo

/-! ## Entity model -/

/-- The Go struct `Animal`; `ID` and `Legs` are Go `int`s. -/
structure Animal where
  ID : Int
  Name : String
  Class : String
  Legs : Int
deriving DecidableEq, Repr

/-- The zero value of `Animal`, what `var animal Animal` holds. -/
def Animal.zero : Animal := ⟨0, "", "", 0⟩

/-! ## Request bodies and `json.Decoder.Decode` -/

/-- A JSON value as the decoder reads it.  `int` is a number literal without
fraction or exponent, `frac` any other number literal (kept as text). -/
inductive JSON where
  | null
  | bool (b : Bool)
  | int (n : Int)
  | frac (lit : String)
  | str (s : String)
  | arr (xs : List JSON)
  | obj (kvs : List (String × JSON))

/-- The four JSON keys of the struct tags. -/
inductive Field where
  | id | name | cls | legs
deriving DecidableEq, Repr

/-- Case folding of one rune of a key: ASCII letters to upper case, and the two
non-ASCII runes whose simple fold is an ASCII letter (long s, Kelvin sign).
Other runes never fold to an ASCII letter and are left as they are, which
decides a match with the four ASCII tags the same way. -/
def foldRune (c : Char) : Char :=
  if c.toNat = 0x17F then Char.ofNat 83
  else if c.toNat = 0x212A then Char.ofNat 75
  else c.toUpper

/-- Folded form of a key. -/
def foldName (k : String) : List Char := k.data.map foldRune

/-- The struct field a JSON key addresses: the key matches a tag exactly or
under case folding (an exact match is also a folded one). -/
def fieldOf (k : String) : Option Field :=
  let f := foldName k
  if f = "ID".data then some .id
  else if f = "NAME".data then some .name
  else if f = "CLASS".data then some .cls
  else if f = "LEGS".data then some .legs
  else none

/-- Whether an integer fits a Go `int` (64 bit). -/
def fitsInt64 (n : Int) : Prop := -9223372036854775808 ≤ n ∧ n ≤ 9223372036854775807

instance (n : Int) : Decidable (fitsInt64 n) := by unfold fitsInt64; infer_instance

/-- Decoding a JSON value into an `int` field: `null` leaves the field as it
is, an integer literal in range sets it, anything else is a type error. -/
def decodeInt (old : Int) : JSON → Option Int
  | .null => some old
  | .int n => if fitsInt64 n then some n else none
  | _ => none

/-- Decoding a JSON value into a `string` field. -/
def decodeString (old : String) : JSON → Option String
  | .null => some old
  | .str s => some s
  | _ => none

/-- One key/value pair of the body object applied to the struct; a key that
names no field is skipped. -/
def setField (a : Animal) (kv : String × JSON) : Option Animal :=
  match fieldOf kv.1 with
  | none => some a
  | some .id => (decodeInt a.ID kv.2).map (fun n => { a with ID := n })
  | some .name => (decodeString a.Name kv.2).map (fun s => { a with Name := s })
  | some .cls => (decodeString a.Class kv.2).map (fun s => { a with Class := s })
  | some .legs => (decodeInt a.Legs kv.2).map (fun n => { a with Legs := n })

/-- The pairs of an object applied in order (a later duplicate key wins). -/
def decodeObject : List (String × JSON) → Animal → Option Animal
  | [], a => some a
  | kv :: rest, a =>
    match setField a kv with
    | none => none
    | some a1 => decodeObject rest a1

/-- The call `json.NewDecoder(r.Body).Decode(&animal)` on a zero `animal`.
The body is given by its first JSON value, `none` when it does not start with
one (not JSON, or empty).  The result is `none` when `Decode` returns an
error. -/
def Decode (body : Option JSON) : Option Animal :=
  match body with
  | none => none
  | some .null => some Animal.zero
  | some (.obj kvs) => decodeObject kvs Animal.zero
  | some _ => none

/-! ## The store -/

/-- Errors a statement can come back with: a `*pq.Error` carrying the store's
SQLSTATE code, or `sql.ErrNoRows` from `Scan`. -/
inductive DbErr where
  | pq (code : String)
  | noRows
deriving DecidableEq, Repr

deriving instance DecidableEq for Except

/-- The state behind the handle `db`: the rows of `animals` in storage order,
and the last value the sequence of `id SERIAL` has handed out. -/
structure DB where
  rows : List Animal
  lastVal : Nat
deriving DecidableEq, Repr

/-- Largest value of `INT` and of the sequence of a `SERIAL` column. -/
def maxInt4 : Nat := 2147483647

/-- Length limit of `VARCHAR(50)`. -/
def varcharLimit : Nat := 50

/-- The table as `CREATE TABLE IF NOT EXISTS` leaves it: an existing table is
kept, a missing one is created empty. -/
def migrateDB (existing : Option DB) : DB :=
  match existing with
  | some db => db
  | none => ⟨[], 0⟩

/-- Whether an integer fits the column type `INT`. -/
def fitsInt4 (n : Int) : Prop := -2147483648 ≤ n ∧ n ≤ 2147483647

instance (n : Int) : Decidable (fitsInt4 n) := by unfold fitsInt4; infer_instance

/-- White space skipped by the store's integer input. -/
def isSpace (c : Char) : Bool :=
  c.toNat = 32 || (9 ≤ c.toNat && c.toNat ≤ 13)

/-- Reads a run of decimal digits, returning its value and the rest. -/
def readDigits : List Char → Nat → Nat × List Char
  | [], acc => (acc, [])
  | c :: cs, acc =>
    if c.isDigit then readDigits cs (acc * 10 + (c.toNat - 48)) else (acc, c :: cs)

/-- Splits an optional sign off the front. -/
def readSign : List Char → Bool × List Char
  | [] => (false, [])
  | c :: cs =>
    if c.toNat = 45 then (true, cs)
    else if c.toNat = 43 then (false, cs)
    else (false, c :: cs)

/-- The store's text input for `INT`, applied to a parameter compared with or
assigned to an `INT` column: optional white space, an optional sign, decimal
digits, optional white space.  Anything else is error 22P02, a value outside
the 32-bit range error 22003. -/
def int4in (s : String) : Except DbErr Int :=
  let (neg, cs) := readSign (s.data.dropWhile isSpace)
  match cs with
  | [] => .error (.pq "22P02")
  | c :: _ =>
    if c.isDigit then
      let (n, rest) := readDigits cs 0
      if rest.all isSpace then
        let v : Int := if neg then -(n : Int) else (n : Int)
        if fitsInt4 v then .ok v else .error (.pq "22003")
      else .error (.pq "22P02")
    else .error (.pq "22P02")

/-- Text the store accepts as a parameter: no NUL character. -/
def textOk (s : String) : Prop := Char.ofNat 0 ∉ s.data

instance (s : String) : Decidable (textOk s) := by unfold textOk; infer_instance

/-- Text that can be assigned to `VARCHAR(50)`: at most 50 characters, or
only blanks beyond the 50th. -/
def fitsVarchar (s : String) : Prop :=
  ∀ c ∈ s.data.drop varcharLimit, c = Char.ofNat 32

instance (s : String) : Decidable (fitsVarchar s) := by unfold fitsVarchar; infer_instance

/-- The value stored by an assignment to `VARCHAR(50)`. -/
def toVarchar (s : String) : String := ⟨s.data.take varcharLimit⟩

/-- The statement
`INSERT INTO animals (name, class, legs) VALUES ($1, $2, $3) RETURNING id`.
The parameters are read and assigned to their column types first; then the
sequence is advanced (it stays advanced when the statement fails afterwards);
then the two unique indexes (primary key, `name`) are checked. -/
def execInsert (db : DB) (name cls : String) (legs : Int) : Except DbErr Int × DB :=
  if ¬ (textOk name ∧ textOk cls) then (.error (.pq "22021"), db)
  else if ¬ fitsInt4 legs then (.error (.pq "22003"), db)
  else if ¬ (fitsVarchar name ∧ fitsVarchar cls) then (.error (.pq "22001"), db)
  else if maxInt4 ≤ db.lastVal then (.error (.pq "2200H"), db)
  else
    let id : Int := ((db.lastVal + 1 : Nat) : Int)
    let db1 : DB := { db with lastVal := db.lastVal + 1 }
    if db.rows.any (fun r => r.ID = id ∨ r.Name = toVarchar name) then
      (.error (.pq "23505"), db1)
    else
      (.ok id, { db1 with rows := db.rows ++ [⟨id, toVarchar name, toVarchar cls, legs⟩] })

/-- The statement `SELECT id, name, class, legs FROM animals`. -/
def queryAll (db : DB) : Except DbErr (List Animal) := .ok db.rows

/-- The statement `SELECT id, name, class, legs FROM animals WHERE id = $1`
followed by `Scan` of its first row. -/
def queryByID (db : DB) (id : String) : Except DbErr Animal :=
  match int4in id with
  | .error e => .error e
  | .ok n =>
    match db.rows.find? (fun r => r.ID = n) with
    | none => .error .noRows
    | some a => .ok a

/-- The statement
`UPDATE animals SET name = $1, class = $2, legs = $3 WHERE id = $4`, with the
number of rows affected.  Parameters are read and assigned to their column
types before any row is looked at; the unique index on `name` rejects the
write when another row holds the new name. -/
def execUpdate (db : DB) (name cls : String) (legs : Int) (id : String) :
    Except DbErr Nat × DB :=
  if ¬ (textOk name ∧ textOk cls) then (.error (.pq "22021"), db)
  else if ¬ fitsInt4 legs then (.error (.pq "22003"), db)
  else
    match int4in id with
    | .error e => (.error e, db)
    | .ok n =>
      if ¬ (fitsVarchar name ∧ fitsVarchar cls) then (.error (.pq "22001"), db)
      else if ¬ db.rows.any (fun r => r.ID = n) then (.ok 0, db)
      else if db.rows.any (fun r => r.ID ≠ n ∧ r.Name = toVarchar name) then
        (.error (.pq "23505"), db)
      else
        (.ok (db.rows.countP (fun r => r.ID = n)),
         { db with rows := db.rows.map (fun r =>
            if r.ID = n then ⟨r.ID, toVarchar name, toVarchar cls, legs⟩ else r) })

/-- The statement `DELETE FROM animals WHERE id = $1`, with the number of rows
affected. -/
def execDelete (db : DB) (id : String) : Except DbErr Nat × DB :=
  match int4in id with
  | .error e => (.error e, db)
  | .ok n =>
    (.ok (db.rows.countP (fun r => r.ID = n)),
     { db with rows := db.rows.filter (fun r => ¬ r.ID = n) })

/-! ## Responses -/

/-- What a handler wrote to the response stream. -/
inductive Body where
  | empty
  | text (msg : String)
  | animal (a : Animal)
  | animals (l : List Animal)
deriving DecidableEq, Repr

/-- Status code and body of a response. -/
structure Response where
  status : Nat
  body : Body
deriving DecidableEq, Repr

/-- The call `http.Error(w, msg, code)`. -/
def httpError (msg : String) (code : Nat) : Response := ⟨code, .text msg⟩

/-! ## Handlers -/

/-- Handler of `POST /animals`. -/
def CreateAnimal (db : DB) (body : Option JSON) : Response × DB :=
  match Decode body with
  | none => (httpError "Invalid input" 400, db)
  | some animal =>
    match execInsert db animal.Name animal.Class animal.Legs with
    | (.error err, db1) =>
      match err with
      | .pq code =>
        if code = "23505" then
          (httpError "Animal with this name already exists" 409, db1)
        else (httpError "Could not create animal" 500, db1)
      | .noRows => (httpError "Could not create animal" 500, db1)
    | (.ok id, db1) => (⟨201, .animal { animal with ID := id }⟩, db1)

/-- Handler of `GET /animals`.  Scanning a row of this table into the struct
cannot fail, so the loop over the rows collects all of them. -/
def GetAllAnimals (db : DB) : Response × DB :=
  match queryAll db with
  | .error _ => (httpError "Could not fetch animals" 500, db)
  | .ok animals =>
    if animals.length = 0 then (httpError "No animals found" 404, db)
    else (⟨200, .animals animals⟩, db)

/-- Handler of `GET /animals/{id}`. -/
def GetAnimalByID (db : DB) (id : String) : Response × DB :=
  match queryByID db id with
  | .error _ => (httpError "Animal not found" 404, db)
  | .ok animal => (⟨200, .animal animal⟩, db)

/-- Handler of `PUT /animals/{id}`. -/
def UpdateAnimal (db : DB) (id : String) (body : Option JSON) : Response × DB :=
  match Decode body with
  | none => (httpError "Invalid input" 400, db)
  | some animal =>
    match execUpdate db animal.Name animal.Class animal.Legs id with
    | (.error _, db1) => (httpError "Could not update animal" 500, db1)
    | (.ok rowsAffected, db1) =>
      if rowsAffected = 0 then (httpError "Animal not found" 404, db1)
      else (⟨200, .empty⟩, db1)

/-- Handler of `DELETE /animals/{id}`. -/
def DeleteAnimal (db : DB) (id : String) : Response × DB :=
  match execDelete db id with
  | (.error _, db1) => (httpError "Could not delete animal" 500, db1)
  | (.ok rowsAffected, db1) =>
    if rowsAffected = 0 then (httpError "Animal not found" 404, db1)
    else (⟨204, .empty⟩, db1)

/-! ## Routing -/

/-- The five method and path pairs that `main` registers on the router. -/
inductive Request where
  | post (body : Option JSON)
  | getAll
  | get (id : String)
  | put (id : String) (body : Option JSON)
  | delete (id : String)

/-- The routing table of `main`. -/
def route (db : DB) : Request → Response × DB
  | .post body => CreateAnimal db body
  | .getAll => GetAllAnimals db
  | .get id => GetAnimalByID db id
  | .put id body => UpdateAnimal db id body
  | .delete id => DeleteAnimal db id

/-- The store after a sequence of requests served one after the other. -/
def serveAll (db : DB) : List Request → DB
  | [] => db
  | req :: rest => serveAll (route db req).2 rest

/-! ## Store states and sample bodies -/

/-- The store states the schema admits: `id` is a key, `name` is unique, every
id was handed out by the sequence, the sequence is within its range, and every
row fits its column types. -/
def DB.wf (db : DB) : Prop :=
  (db.rows.map (fun r => r.ID)).Nodup ∧
  (db.rows.map (fun r => r.Name)).Nodup ∧
  db.lastVal ≤ maxInt4 ∧
  ∀ r ∈ db.rows,
    1 ≤ r.ID ∧ r.ID ≤ (db.lastVal : Int) ∧
    textOk r.Name ∧ r.Name.length ≤ varcharLimit ∧
    textOk r.Class ∧ r.Class.length ≤ varcharLimit ∧
    fitsInt4 r.Legs

instance (db : DB) : Decidable db.wf := by unfold DB.wf; infer_instance

/-- The request body `{"name": name, "class": cls, "legs": legs}`. -/
def bodyOf (name cls : String) (legs : Int) : Option JSON :=
  some (.obj [("name", .str name), ("class", .str cls), ("legs", .int legs)])

/-- Sample row. -/
def lion : Animal := ⟨1, "Lion", "Mammal", 4⟩

/-- Sample row. -/
def tiger : Animal := ⟨2, "Tiger", "Mammal", 4⟩

/-- Sample store with two rows. -/
def zoo : DB := ⟨[lion, tiger], 2⟩

/-- A text of `n` letters `a`. -/
def longText (n : Nat) : String := ⟨List.replicate n (Char.ofNat 97)⟩

/-! ## Read handlers -/

theorem queryByID_ok_iff (db : DB) (pid : String) (a : Animal) :
    queryByID db pid = .ok a ↔
      ∃ n, int4in pid = .ok n ∧ db.rows.find? (fun r => r.ID = n) = some a := by
  unfold queryByID
  cases h : int4in pid with
  | error e => simp
  | ok n =>
    cases hf : db.rows.find? (fun r => r.ID = n) with
    | none => simp [hf]
    | some b => simp [hf]

theorem GetAnimalByID_eq (db : DB) (pid : String) :
    GetAnimalByID db pid =
      (match queryByID db pid with
        | .error _ => httpError "Animal not found" 404
        | .ok animal => ⟨200, .animal animal⟩, db) := by
  unfold GetAnimalByID
  cases queryByID db pid <;> rfl

/-- C8: GetAnimalByID never changes the store, answers only 200 or 404, answers
200 exactly when the path id is an integer the store accepts and some row has
that id, the body then being that row, and answers 404 otherwise. -/
theorem GetAnimalByID_spec (db : DB) (pid : String) :
    (GetAnimalByID db pid).2 = db ∧
    ((GetAnimalByID db pid).1.status = 200 ↔
      ∃ n, int4in pid = .ok n ∧ ∃ r ∈ db.rows, r.ID = n) ∧
    ((GetAnimalByID db pid).1.status = 200 →
      ∃ r ∈ db.rows, int4in pid = .ok r.ID ∧ (GetAnimalByID db pid).1.body = .animal r) ∧
    ((GetAnimalByID db pid).1.status ≠ 200 →
      (GetAnimalByID db pid).1 = httpError "Animal not found" 404) := by
  rw [GetAnimalByID_eq]
  cases hq : queryByID db pid with
  | error e =>
    refine ⟨rfl, ?_, ?_, ?_⟩
    · constructor
      · intro h; simp [httpError] at h
      · rintro ⟨n, hn, r, hr, hrn⟩
        exfalso
        have hsome : (db.rows.find? (fun r => r.ID = n)).isSome := by
          rw [List.find?_isSome]; exact ⟨r, hr, by simpa using hrn⟩
        obtain ⟨a, ha⟩ := Option.isSome_iff_exists.mp hsome
        have := (queryByID_ok_iff db pid a).mpr ⟨n, hn, ha⟩
        rw [hq] at this; cases this
    · intro h; simp [httpError] at h
    · intro _; rfl
  | ok a =>
    obtain ⟨n, hn, hf⟩ := (queryByID_ok_iff db pid a).mp hq
    have hmem : a ∈ db.rows := List.mem_of_find?_eq_some hf
    have hid : a.ID = n := by simpa using List.find?_some hf
    refine ⟨rfl, ?_, ?_, ?_⟩
    · constructor
      · intro _; exact ⟨n, hn, a, hmem, hid⟩
      · intro _; rfl
    · intro _; exact ⟨a, hmem, by rw [hid]; exact hn, rfl⟩
    · intro h; exact absurd rfl h

/-- C6: GetAllAnimals leaves the store as it is; on a store without rows it
answers 404, and on any other store it answers 200 with a non-empty array in
which every row of the store occurs exactly as often as in the store. -/
theorem GetAllAnimals_spec (db : DB) :
    (GetAllAnimals db).2 = db ∧
    (db.rows = [] → (GetAllAnimals db).1 = httpError "No animals found" 404) ∧
    (db.rows ≠ [] → (GetAllAnimals db).1 = ⟨200, .animals db.rows⟩) ∧
    (∀ l, (GetAllAnimals db).1 = ⟨200, .animals l⟩ →
      l ≠ [] ∧ l.Perm db.rows ∧ ∀ a, l.count a = db.rows.count a) := by
  by_cases h : db.rows = []
  · simp [GetAllAnimals, queryAll, h, httpError]
  · have hl : db.rows.length ≠ 0 := by simpa [List.length_eq_zero] using h
    have key : GetAllAnimals db = (⟨200, .animals db.rows⟩, db) := by
      simp [GetAllAnimals, queryAll, hl]
    rw [key]
    refine ⟨rfl, fun h0 => absurd h0 h, fun _ => rfl, ?_⟩
    intro l hl2
    have hb := congrArg Response.body hl2
    have : l = db.rows := by
      injection hb with hb1
      exact hb1.symm
    subst this
    exact ⟨h, List.Perm.refl _, fun _ => rfl⟩

/-! ## Undecodable bodies -/

theorem decodeObject_legs_str (s : String) :
    ∀ (kvs : List (String × JSON)) (a : Animal),
      ("legs", JSON.str s) ∈ kvs → decodeObject kvs a = none := by
  intro kvs
  induction kvs with
  | nil => intro a h; simp at h
  | cons kv rest ih =>
    intro a h
    rcases List.mem_cons.mp h with h1 | h1
    · subst h1
      have : setField a ("legs", JSON.str s) = none := by
        have hf : fieldOf "legs" = some Field.legs := by decide
        simp [setField, hf, decodeInt]
      simp [decodeObject, this]
    · unfold decodeObject
      cases setField a kv with
      | none => rfl
      | some a1 => exact ih a1 h1

/-- A body object that gives `legs` a string cannot be decoded. -/
theorem Decode_legs_str (kvs : List (String × JSON)) (s : String)
    (h : ("legs", JSON.str s) ∈ kvs) : Decode (some (.obj kvs)) = none := by
  simp [Decode, decodeObject_legs_str s kvs Animal.zero h]

/-- C9: a body that cannot be decoded makes CreateAnimal and UpdateAnimal
answer 400 and return the store exactly as it was, for UpdateAnimal whatever
the path id is. -/
theorem undecodable_body_400 (db : DB) (pid : String) (body : Option JSON)
    (h : Decode body = none) :
    CreateAnimal db body = (httpError "Invalid input" 400, db) ∧
    UpdateAnimal db pid body = (httpError "Invalid input" 400, db) := by
  simp [CreateAnimal, UpdateAnimal, h]

theorem undecodable_body_400_witness :
    Decode (some (.obj [("name", .str "Lion"), ("legs", .str "four")])) = none ∧
    CreateAnimal ⟨[⟨1, "Lion", "Mammal", 4⟩], 1⟩
        (some (.obj [("name", .str "Lion"), ("legs", .str "four")]))
      = (httpError "Invalid input" 400, ⟨[⟨1, "Lion", "Mammal", 4⟩], 1⟩) ∧
    UpdateAnimal ⟨[⟨1, "Lion", "Mammal", 4⟩], 1⟩ "1"
        (some (.obj [("name", .str "Lion"), ("legs", .str "four")]))
      = (httpError "Invalid input" 400, ⟨[⟨1, "Lion", "Mammal", 4⟩], 1⟩) :=
  ⟨by decide, undecodable_body_400 _ "1" _ (by decide)⟩

/-! ## Path ids the store does not read as an integer -/

theorem execDelete_bad_id (db : DB) (pid : String) (e : DbErr) (h : int4in pid = .error e) :
    execDelete db pid = (.error e, db) := by
  simp [execDelete, h]

theorem execUpdate_bad_id (db : DB) (pid : String) (e : DbErr) (h : int4in pid = .error e)
    (name cls : String) (legs : Int) :
    ∃ e1, execUpdate db name cls legs pid = (.error e1, db) := by
  unfold execUpdate
  split
  · exact ⟨_, rfl⟩
  · split
    · exact ⟨_, rfl⟩
    · simp [h]

/-- C10: when the store does not read the path id as an integer, DeleteAnimal
answers 500, UpdateAnimal with a decodable body answers 500, GetAnimalByID
answers 404, and none of the three changes the store. -/
theorem bad_path_id (db : DB) (pid : String) (e : DbErr) (h : int4in pid = .error e) :
    DeleteAnimal db pid = (httpError "Could not delete animal" 500, db) ∧
    (∀ body a, Decode body = some a →
      UpdateAnimal db pid body = (httpError "Could not update animal" 500, db)) ∧
    GetAnimalByID db pid = (httpError "Animal not found" 404, db) := by
  refine ⟨?_, ?_, ?_⟩
  · simp [DeleteAnimal, execDelete_bad_id db pid e h]
  · intro body a ha
    obtain ⟨e1, he1⟩ := execUpdate_bad_id db pid e h a.Name a.Class a.Legs
    simp [UpdateAnimal, ha, he1]
  · simp [GetAnimalByID, queryByID, h]

theorem bad_path_id_witness :
    int4in "abc" = .error (.pq "22P02") ∧
    DeleteAnimal ⟨[⟨1, "Lion", "Mammal", 4⟩], 1⟩ "abc"
      = (httpError "Could not delete animal" 500, ⟨[⟨1, "Lion", "Mammal", 4⟩], 1⟩) ∧
    (∀ body a, Decode body = some a →
      UpdateAnimal ⟨[⟨1, "Lion", "Mammal", 4⟩], 1⟩ "abc" body
        = (httpError "Could not update animal" 500, ⟨[⟨1, "Lion", "Mammal", 4⟩], 1⟩)) ∧
    GetAnimalByID ⟨[⟨1, "Lion", "Mammal", 4⟩], 1⟩ "abc"
      = (httpError "Animal not found" 404, ⟨[⟨1, "Lion", "Mammal", 4⟩], 1⟩) :=
  ⟨by decide, bad_path_id _ "abc" (.pq "22P02") (by decide)⟩

/-! ## Column types -/

theorem toVarchar_of_le (s : String) (h : s.length ≤ varcharLimit) : toVarchar s = s := by
  cases s with
  | mk l =>
    have hl : l.length ≤ varcharLimit := h
    simp [toVarchar, List.take_of_length_le hl]

theorem fitsVarchar_of_le (s : String) (h : s.length ≤ varcharLimit) : fitsVarchar s := by
  cases s with
  | mk l =>
    have hl : l.length ≤ varcharLimit := h
    simp [fitsVarchar, List.drop_of_length_le hl]

/-- A body with the three keys decodes to those values and id 0. -/
theorem Decode_bodyOf (name cls : String) (legs : Int) (h : fitsInt64 legs) :
    Decode (bodyOf name cls legs) = some ⟨0, name, cls, legs⟩ := by
  have h1 : fieldOf "name" = some Field.name := by decide
  have h2 : fieldOf "class" = some Field.cls := by decide
  have h3 : fieldOf "legs" = some Field.legs := by decide
  simp [Decode, bodyOf, decodeObject, setField, h1, h2, h3, decodeString, decodeInt, h,
    Animal.zero]

/-! ## Decimal path ids -/

theorem digitChar_lt_ten (m : Nat) (h : m < 10) :
    (Nat.digitChar m).isDigit = true ∧ (Nat.digitChar m).toNat - 48 = m := by
  interval_cases m <;> decide

theorem isDigit_bounds (c : Char) (h : c.isDigit = true) : 48 ≤ c.toNat ∧ c.toNat ≤ 57 := by
  simp only [Char.isDigit, Bool.and_eq_true, decide_eq_true_eq] at h
  exact ⟨h.1, h.2⟩

theorem toDigitsCore_step (fuel n : Nat) (ds : List Char) :
    Nat.toDigitsCore 10 (fuel + 1) n ds =
      if n / 10 = 0 then Nat.digitChar (n % 10) :: ds
      else Nat.toDigitsCore 10 fuel (n / 10) (Nat.digitChar (n % 10) :: ds) := by
  simp [Nat.toDigitsCore]

theorem readDigits_toDigitsCore :
    ∀ (fuel n : Nat) (ds : List Char), n < fuel →
      ∃ digs : List Char, Nat.toDigitsCore 10 fuel n ds = digs ++ ds ∧
        (∃ c cs, digs = c :: cs ∧ c.isDigit = true) ∧
        ∀ acc rest, readDigits (digs ++ rest) acc = readDigits rest (acc * 10 ^ digs.length + n) := by
  intro fuel
  induction fuel with
  | zero => intro n ds h; omega
  | succ fuel ih =>
    intro n ds hn
    obtain ⟨hd1, hd2⟩ := digitChar_lt_ten (n % 10) (Nat.mod_lt _ (by decide))
    have step : ∀ (rest : List Char) (acc : Nat),
        readDigits (Nat.digitChar (n % 10) :: rest) acc = readDigits rest (acc * 10 + n % 10) := by
      intro rest acc
      rw [readDigits, if_pos hd1, hd2]
    rw [toDigitsCore_step]
    by_cases h0 : n / 10 = 0
    · rw [if_pos h0]
      refine ⟨[Nat.digitChar (n % 10)], rfl, ⟨_, _, rfl, hd1⟩, ?_⟩
      intro acc rest
      have hmod : n % 10 = n := by omega
      rw [List.singleton_append, step, List.length_singleton, pow_one, hmod]
    · rw [if_neg h0]
      obtain ⟨digs, hdigs, ⟨c, cs, hc, hcd⟩, hread⟩ :=
        ih (n / 10) (Nat.digitChar (n % 10) :: ds) (by omega)
      refine ⟨digs ++ [Nat.digitChar (n % 10)], ?_, ⟨c, cs ++ [Nat.digitChar (n % 10)], ?_, hcd⟩, ?_⟩
      · rw [hdigs]; simp
      · rw [hc]; rfl
      · intro acc rest
        rw [List.append_assoc, List.singleton_append, hread, step, List.length_append,
          List.length_singleton, pow_succ]
        congr 1
        rw [← Nat.mul_assoc]
        generalize acc * 10 ^ digs.length = x
        omega

theorem isDigit_not_space (c : Char) (h : c.isDigit = true) :
    isSpace c = false ∧ c.toNat ≠ 45 ∧ c.toNat ≠ 43 := by
  obtain ⟨h1, h2⟩ := isDigit_bounds c h
  refine ⟨?_, by omega, by omega⟩
  simp only [isSpace, Bool.or_eq_false_iff, Bool.and_eq_false_iff, decide_eq_false_iff_not]
  omega
/-- The store reads the decimal rendering of a natural number within the INT
range, as a client writes an id into the path, as that number. -/
theorem int4in_repr (n : Nat) (h : n ≤ maxInt4) : int4in (Nat.repr n) = .ok (n : Int) := by
  obtain ⟨digs, hdigs, ⟨c, cs, hc, hcd⟩, hread⟩ :=
    readDigits_toDigitsCore (n + 1) n [] (Nat.lt_succ_self n)
  obtain ⟨hsp, h45, h43⟩ := isDigit_not_space c hcd
  have hdata : (Nat.repr n).data = c :: cs := by
    show Nat.toDigitsCore 10 (n + 1) n [] = c :: cs
    rw [hdigs, hc]; simp
  have hrd : readDigits (c :: cs) 0 = (n, []) := by
    have := hread 0 []
    rw [hc] at this
    simpa [readDigits] using this
  have hfit : fitsInt4 (n : Int) := by
    unfold fitsInt4
    unfold maxInt4 at h
    constructor <;> omega
  unfold int4in
  rw [hdata, List.dropWhile_cons, hsp]
  simp only [Bool.false_eq_true, if_false, readSign, h45, h43, hcd, if_true, hrd, List.all_nil,
    hfit]

/-! ## DeleteAnimal -/

theorem filter_id_eq_erase :
    ∀ (l : List Animal) (r : Animal), (l.map (fun x => x.ID)).Nodup → r ∈ l →
      l.filter (fun x => ¬ x.ID = r.ID) = l.erase r := by
  intro l
  induction l with
  | nil => intro r _ h; simp at h
  | cons x xs ih =>
    intro r hnd hr
    rw [List.map_cons, List.nodup_cons] at hnd
    obtain ⟨hx, hxs⟩ := hnd
    by_cases hrx : r = x
    · subst hrx
      have hkeep : xs.filter (fun y => ¬ y.ID = r.ID) = xs := by
        rw [List.filter_eq_self]
        intro y hy
        have : y.ID ≠ r.ID := fun he => hx (he ▸ List.mem_map_of_mem (fun x => x.ID) hy)
        simpa using this
      rw [List.filter_cons]
      simp only [not_true_eq_false, decide_False, Bool.false_eq_true, if_false, hkeep,
        List.erase_cons_head]
    · have hr2 : r ∈ xs := by
        rcases List.mem_cons.mp hr with h | h
        · exact absurd h hrx
        · exact h
      have hne : x.ID ≠ r.ID := fun he => hx (he ▸ List.mem_map_of_mem (fun x => x.ID) hr2)
      have hxr : x ≠ r := fun he => hrx he.symm
      rw [List.filter_cons]
      simp only [hne, not_false_eq_true, decide_True, if_true]
      rw [ih r hxs hr2, List.erase_cons_tail (by simpa using hxr)]

theorem find_none_of_filter (l : List Animal) (n : Int) :
    (l.filter (fun x => ¬ x.ID = n)).find? (fun r => r.ID = n) = none := by
  rw [List.find?_eq_none]
  intro x hx
  have := (List.mem_filter.mp hx).2
  simpa using this

/-- C3: on a store state the schema admits and a path id the store reads as the
integer n, DeleteAnimal answers 404 and keeps the store when no row has id n;
when a row has id n it answers 204 with an empty body, the new rows are the old
ones with exactly that row erased, and GetAnimalByID on the same id then
answers 404. -/
theorem DeleteAnimal_spec (db : DB) (pid : String) (n : Int) (hwf : db.wf)
    (hid : int4in pid = .ok n) :
    ((∀ r ∈ db.rows, r.ID ≠ n) →
      DeleteAnimal db pid = (httpError "Animal not found" 404, db)) ∧
    (∀ r ∈ db.rows, r.ID = n →
      (DeleteAnimal db pid).1 = ⟨204, .empty⟩ ∧
      (DeleteAnimal db pid).2.rows = db.rows.erase r ∧
      (DeleteAnimal db pid).2.rows.length + 1 = db.rows.length ∧
      (∀ x ∈ db.rows, x ≠ r → x ∈ (DeleteAnimal db pid).2.rows) ∧
      (DeleteAnimal db pid).2.lastVal = db.lastVal ∧
      (GetAnimalByID (DeleteAnimal db pid).2 pid).1 = httpError "Animal not found" 404) := by
  constructor
  · intro hno
    have hc : db.rows.countP (fun r => r.ID = n) = 0 := by
      rw [List.countP_eq_zero]
      intro r hr; simpa using hno r hr
    have hf : db.rows.filter (fun r => ¬ r.ID = n) = db.rows := by
      rw [List.filter_eq_self]
      intro r hr; simpa using hno r hr
    simp only [DeleteAnimal, execDelete, hid, hc, hf, if_true]
  · intro r hr hrn
    have hc : db.rows.countP (fun r => r.ID = n) ≠ 0 := by
      rw [Ne, List.countP_eq_zero]
      intro h; exact (by simpa using h r hr : ¬ r.ID = n) hrn
    have hf : db.rows.filter (fun x => ¬ x.ID = n) = db.rows.erase r := by
      rw [← hrn]; exact filter_id_eq_erase db.rows r hwf.1 hr
    have key : DeleteAnimal db pid = (⟨204, .empty⟩, { db with rows := db.rows.erase r }) := by
      simp only [DeleteAnimal, execDelete, hid, hc, hf, if_false]
    rw [key]
    refine ⟨rfl, rfl, ?_, ?_, rfl, ?_⟩
    · simp only [List.length_erase_of_mem hr]
      have : 0 < db.rows.length := List.length_pos_of_mem hr
      omega
    · intro x hx hxr
      exact (List.mem_erase_of_ne hxr).mpr hx
    · have hnone : (db.rows.erase r).find? (fun r => r.ID = n) = none := by
        rw [← hf]; exact find_none_of_filter db.rows n
      simp [GetAnimalByID, queryByID, hid, hnone]

theorem DeleteAnimal_spec_witness :
    zoo.wf ∧ int4in "2" = .ok 2 ∧
    (DeleteAnimal zoo "2").1 = ⟨204, .empty⟩ ∧
    (DeleteAnimal zoo "2").2.rows = zoo.rows.erase tiger ∧
    (DeleteAnimal zoo "2").2.rows.length + 1 = zoo.rows.length ∧
    (∀ x ∈ zoo.rows, x ≠ tiger → x ∈ (DeleteAnimal zoo "2").2.rows) ∧
    (DeleteAnimal zoo "2").2.lastVal = zoo.lastVal ∧
    (GetAnimalByID (DeleteAnimal zoo "2").2 "2").1 = httpError "Animal not found" 404 :=
  ⟨by decide, by decide,
   (DeleteAnimal_spec zoo "2" 2 (by decide) (by decide)).2 tiger (by decide) (by decide)⟩

/-! ## UpdateAnimal -/

theorem execUpdate_absent (db : DB) (pid : String) (n : Int) (name cls : String) (legs : Int)
    (hid : int4in pid = .ok n) (hno : ∀ r ∈ db.rows, r.ID ≠ n)
    (htext : textOk name ∧ textOk cls) (hfit : fitsVarchar name ∧ fitsVarchar cls)
    (hlegs : fitsInt4 legs) :
    execUpdate db name cls legs pid = (.ok 0, db) := by
  have hany : ¬ (db.rows.any (fun r => r.ID = n) = true) := by
    rw [List.any_eq_true]
    rintro ⟨r, hr, hrn⟩
    exact hno r hr (by simpa using hrn)
  unfold execUpdate
  rw [if_neg (not_not.mpr htext), if_neg (not_not.mpr hlegs)]
  simp only [hid]
  rw [if_neg (not_not.mpr hfit), if_pos hany]

/-- C4 (amended): for a path id the store reads as an integer n that no row
has, and a decodable body whose name and class hold no NUL character and fit
VARCHAR(50) and whose legs fit the 32-bit INT, UpdateAnimal answers 404 and
returns the store exactly as it was. -/
theorem UpdateAnimal_absent (db : DB) (pid : String) (n : Int) (body : Option JSON)
    (a : Animal) (hid : int4in pid = .ok n) (hdec : Decode body = some a)
    (hno : ∀ r ∈ db.rows, r.ID ≠ n)
    (htext : textOk a.Name ∧ textOk a.Class)
    (hfit : fitsVarchar a.Name ∧ fitsVarchar a.Class)
    (hlegs : fitsInt4 a.Legs) :
    UpdateAnimal db pid body = (httpError "Animal not found" 404, db) := by
  simp only [UpdateAnimal, hdec,
    execUpdate_absent db pid n a.Name a.Class a.Legs hid hno htext hfit hlegs, if_true]

theorem UpdateAnimal_absent_witness :
    int4in "7" = .ok 7 ∧ Decode (bodyOf "Zebra" "Mammal" 4) = some ⟨0, "Zebra", "Mammal", 4⟩ ∧
    (∀ r ∈ zoo.rows, r.ID ≠ 7) ∧
    UpdateAnimal zoo "7" (bodyOf "Zebra" "Mammal" 4) = (httpError "Animal not found" 404, zoo) :=
  ⟨by decide, by decide, by decide,
   UpdateAnimal_absent zoo "7" 7 (bodyOf "Zebra" "Mammal" 4) ⟨0, "Zebra", "Mammal", 4⟩
     (by decide) (by decide) (by decide) (by decide) (by decide) (by decide)⟩

/-- C4 as stated fails: the body `{"name":"Zebra","class":"Mammal","legs":2147483648}`
decodes (a Go int holds the value), no row has id 7, and UpdateAnimal answers
500, not 404, because the store rejects the value for the INT column. -/
theorem UpdateAnimal_absent_counterexample :
    int4in "7" = .ok 7 ∧
    Decode (bodyOf "Zebra" "Mammal" 2147483648) = some ⟨0, "Zebra", "Mammal", 2147483648⟩ ∧
    (∀ r ∈ zoo.rows, r.ID ≠ 7) ∧
    UpdateAnimal zoo "7" (bodyOf "Zebra" "Mammal" 2147483648)
      = (httpError "Could not update animal" 500, zoo) := by
  decide

/-- C7: the store holding Lion (id 1) and Tiger (id 2) is reached by two
creations on the fresh table; renaming row 2 to "Lion" then makes the store
report the uniqueness violation 23505, and UpdateAnimal answers 500 and leaves
the store unchanged, whereas CreateAnimal answers 409 for the same violation on
the same store. -/
theorem UpdateAnimal_duplicate_name :
    serveAll (migrateDB none)
      [.post (bodyOf "Lion" "Mammal" 4), .post (bodyOf "Tiger" "Mammal" 4)] = zoo ∧
    execUpdate zoo "Lion" "Mammal" 4 "2" = (.error (.pq "23505"), zoo) ∧
    UpdateAnimal zoo "2" (bodyOf "Lion" "Mammal" 4)
      = (httpError "Could not update animal" 500, zoo) ∧
    (CreateAnimal zoo (bodyOf "Lion" "Mammal" 4)).1
      = httpError "Animal with this name already exists" 409 ∧
    (CreateAnimal zoo (bodyOf "Lion" "Mammal" 4)).2.rows = zoo.rows := by
  decide

/-! ## CreateAnimal -/

theorem execInsert_conflict (db : DB) (name cls : String) (legs : Int)
    (htext : textOk name ∧ textOk cls) (hfit : fitsVarchar name ∧ fitsVarchar cls)
    (hlegs : fitsInt4 legs) (hseq : db.lastVal < maxInt4)
    (hdup : ∃ r ∈ db.rows, r.Name = toVarchar name) :
    execInsert db name cls legs
      = (.error (.pq "23505"), { db with lastVal := db.lastVal + 1 }) := by
  have hany : db.rows.any
      (fun r => r.ID = ((db.lastVal + 1 : Nat) : Int) ∨ r.Name = toVarchar name) = true := by
    rw [List.any_eq_true]
    obtain ⟨r, hr, hrn⟩ := hdup
    exact ⟨r, hr, by simp [hrn]⟩
  unfold execInsert
  rw [if_neg (not_not.mpr htext), if_neg (not_not.mpr hlegs), if_neg (not_not.mpr hfit),
    if_neg (Nat.not_le.mpr hseq)]
  simp only
  rw [if_pos hany]

theorem execInsert_fresh (db : DB) (name cls : String) (legs : Int)
    (htext : textOk name ∧ textOk cls) (hfit : fitsVarchar name ∧ fitsVarchar cls)
    (hlegs : fitsInt4 legs) (hseq : db.lastVal < maxInt4)
    (hid : ∀ r ∈ db.rows, r.ID ≠ ((db.lastVal + 1 : Nat) : Int))
    (hfresh : ∀ r ∈ db.rows, r.Name ≠ toVarchar name) :
    execInsert db name cls legs
      = (.ok ((db.lastVal + 1 : Nat) : Int),
         ⟨db.rows ++ [⟨((db.lastVal + 1 : Nat) : Int), toVarchar name, toVarchar cls, legs⟩],
          db.lastVal + 1⟩) := by
  have hany : ¬ db.rows.any
      (fun r => r.ID = ((db.lastVal + 1 : Nat) : Int) ∨ r.Name = toVarchar name) = true := by
    rw [List.any_eq_true]
    rintro ⟨r, hr, hrn⟩
    rcases (by simpa using hrn : r.ID = ((db.lastVal : Int) + 1) ∨ r.Name = toVarchar name)
      with h | h
    · exact hid r hr (by push_cast; exact h)
    · exact hfresh r hr h
  unfold execInsert
  rw [if_neg (not_not.mpr htext), if_neg (not_not.mpr hlegs), if_neg (not_not.mpr hfit),
    if_neg (Nat.not_le.mpr hseq)]
  simp only
  rw [if_neg hany]

/-- C1 (amended): on a store state the schema admits whose id sequence is not
exhausted, a decodable body whose name equals the name of an existing row,
whose class holds no NUL character and fits VARCHAR(50) and whose legs fit the
32-bit INT makes CreateAnimal answer 409; the rows of the store are the same
afterwards, none added and their number unchanged. -/
theorem CreateAnimal_conflict (db : DB) (body : Option JSON) (a : Animal) (hwf : db.wf)
    (hdec : Decode body = some a) (hdup : ∃ r ∈ db.rows, r.Name = a.Name)
    (hcls : textOk a.Class ∧ fitsVarchar a.Class) (hlegs : fitsInt4 a.Legs)
    (hseq : db.lastVal < maxInt4) :
    (CreateAnimal db body).1 = httpError "Animal with this name already exists" 409 ∧
    (CreateAnimal db body).2.rows = db.rows ∧
    (CreateAnimal db body).2.rows.length = db.rows.length := by
  obtain ⟨r, hr, hrn⟩ := hdup
  obtain ⟨_, _, hrtxt, hrlen, _⟩ := hwf.2.2.2 r hr
  have hlen : a.Name.length ≤ varcharLimit := hrn ▸ hrlen
  have htxt : textOk a.Name := hrn ▸ hrtxt
  have hins := execInsert_conflict db a.Name a.Class a.Legs ⟨htxt, hcls.1⟩
    ⟨fitsVarchar_of_le _ hlen, hcls.2⟩ hlegs hseq
    ⟨r, hr, by rw [toVarchar_of_le _ hlen]; exact hrn⟩
  have key : CreateAnimal db body
      = (httpError "Animal with this name already exists" 409,
          { db with lastVal := db.lastVal + 1 }) := by
    simp only [CreateAnimal, hdec, hins, if_true]
  rw [key]
  exact ⟨rfl, rfl, rfl⟩

theorem CreateAnimal_conflict_witness :
    zoo.wf ∧ Decode (bodyOf "Lion" "Bird" 2) = some ⟨0, "Lion", "Bird", 2⟩ ∧
    (CreateAnimal zoo (bodyOf "Lion" "Bird" 2)).1
      = httpError "Animal with this name already exists" 409 ∧
    (CreateAnimal zoo (bodyOf "Lion" "Bird" 2)).2.rows = zoo.rows ∧
    (CreateAnimal zoo (bodyOf "Lion" "Bird" 2)).2.rows.length = zoo.rows.length :=
  ⟨by decide, by decide,
   CreateAnimal_conflict zoo (bodyOf "Lion" "Bird" 2) ⟨0, "Lion", "Bird", 2⟩ (by decide)
     (by decide) (by decide) (by decide) (by decide) (by decide)⟩

/-- C1 as stated fails: the body `{"name":"Lion","class":"Mammal","legs":2147483648}`
decodes and names the existing row Lion, yet CreateAnimal answers 500, not 409,
because the store rejects the value for the INT column before it looks at the
unique index; the same happens for the existing name with a class of 51
letters, which does not fit VARCHAR(50). -/
theorem CreateAnimal_conflict_counterexample :
    zoo.wf ∧ (∃ r ∈ zoo.rows, r.Name = "Lion") ∧
    Decode (bodyOf "Lion" "Mammal" 2147483648) = some ⟨0, "Lion", "Mammal", 2147483648⟩ ∧
    CreateAnimal zoo (bodyOf "Lion" "Mammal" 2147483648)
      = (httpError "Could not create animal" 500, zoo) ∧
    Decode (bodyOf "Lion" (longText 51) 4) = some ⟨0, "Lion", longText 51, 4⟩ ∧
    CreateAnimal zoo (bodyOf "Lion" (longText 51) 4)
      = (httpError "Could not create animal" 500, zoo) := by
  decide

/-- C2 (amended): on a store state the schema admits whose id sequence is not
exhausted, a decodable body whose name is not in the store, whose name and class
hold no NUL character and have at most 50 characters and whose legs fit the
32-bit INT makes CreateAnimal answer 201 with an Animal that carries the next
value of the sequence as id (whatever id the body had) and the body name, class
and legs; a GetAnimalByID straight afterwards, on any path id the store reads
as that id and in particular on its decimal rendering, answers 200 with the
very same Animal. -/
theorem CreateAnimal_then_Get (db : DB) (body : Option JSON) (a : Animal) (hwf : db.wf)
    (hdec : Decode body = some a) (hfresh : ∀ r ∈ db.rows, r.Name ≠ a.Name)
    (hname : textOk a.Name ∧ a.Name.length ≤ varcharLimit)
    (hcls : textOk a.Class ∧ a.Class.length ≤ varcharLimit)
    (hlegs : fitsInt4 a.Legs) (hseq : db.lastVal < maxInt4) :
    (CreateAnimal db body).1
      = ⟨201, .animal ⟨(db.lastVal : Int) + 1, a.Name, a.Class, a.Legs⟩⟩ ∧
    (∀ r ∈ db.rows, r.ID ≠ (db.lastVal : Int) + 1) ∧
    (CreateAnimal db body).2.rows
      = db.rows ++ [⟨(db.lastVal : Int) + 1, a.Name, a.Class, a.Legs⟩] ∧
    (∀ pid, int4in pid = .ok ((db.lastVal : Int) + 1) →
      GetAnimalByID (CreateAnimal db body).2 pid
        = (⟨200, .animal ⟨(db.lastVal : Int) + 1, a.Name, a.Class, a.Legs⟩⟩,
           (CreateAnimal db body).2)) ∧
    GetAnimalByID (CreateAnimal db body).2 (Nat.repr (db.lastVal + 1))
      = (⟨200, .animal ⟨(db.lastVal : Int) + 1, a.Name, a.Class, a.Legs⟩⟩,
         (CreateAnimal db body).2) := by
  have hidfresh : ∀ r ∈ db.rows, r.ID ≠ (db.lastVal : Int) + 1 := by
    intro r hr he
    have := (hwf.2.2.2 r hr).2.1
    omega
  have hins := execInsert_fresh db a.Name a.Class a.Legs ⟨hname.1, hcls.1⟩
    ⟨fitsVarchar_of_le _ hname.2, fitsVarchar_of_le _ hcls.2⟩ hlegs hseq
    (by intro r hr; push_cast; exact hidfresh r hr)
    (by rw [toVarchar_of_le _ hname.2]; exact hfresh)
  rw [toVarchar_of_le _ hname.2, toVarchar_of_le _ hcls.2] at hins
  have key : CreateAnimal db body
      = (⟨201, .animal ⟨(db.lastVal : Int) + 1, a.Name, a.Class, a.Legs⟩⟩,
          ⟨db.rows ++ [⟨(db.lastVal : Int) + 1, a.Name, a.Class, a.Legs⟩], db.lastVal + 1⟩) := by
    simp only [CreateAnimal, hdec, hins]
    push_cast
    rfl
  rw [key]
  have hget : ∀ pid, int4in pid = .ok ((db.lastVal : Int) + 1) →
      GetAnimalByID
          ⟨db.rows ++ [⟨(db.lastVal : Int) + 1, a.Name, a.Class, a.Legs⟩], db.lastVal + 1⟩ pid
        = (⟨200, .animal ⟨(db.lastVal : Int) + 1, a.Name, a.Class, a.Legs⟩⟩,
           ⟨db.rows ++ [⟨(db.lastVal : Int) + 1, a.Name, a.Class, a.Legs⟩],
            db.lastVal + 1⟩) := ?_
  · refine ⟨rfl, hidfresh, rfl, hget, hget _ ?_⟩
    have := int4in_repr (db.lastVal + 1) (by unfold maxInt4 at *; omega)
    rw [this]; push_cast; rfl
  intro pid hpid
  have hfind : (db.rows ++ [(⟨(db.lastVal : Int) + 1, a.Name, a.Class, a.Legs⟩ : Animal)]).find?
      (fun r => r.ID = (db.lastVal : Int) + 1)
      = some ⟨(db.lastVal : Int) + 1, a.Name, a.Class, a.Legs⟩ := by
    have hnone : db.rows.find? (fun r => r.ID = (db.lastVal : Int) + 1) = none := by
      rw [List.find?_eq_none]
      intro r hr; simpa using hidfresh r hr
    rw [List.find?_append, hnone]
    simp
  simp only [GetAnimalByID, queryByID, hpid, hfind]

theorem CreateAnimal_then_Get_witness :
    zoo.wf ∧ Decode (bodyOf "Zebra" "Mammal" 4) = some ⟨0, "Zebra", "Mammal", 4⟩ ∧
    (CreateAnimal zoo (bodyOf "Zebra" "Mammal" 4)).1 = ⟨201, .animal ⟨3, "Zebra", "Mammal", 4⟩⟩ ∧
    GetAnimalByID (CreateAnimal zoo (bodyOf "Zebra" "Mammal" 4)).2 "3"
      = (⟨200, .animal ⟨3, "Zebra", "Mammal", 4⟩⟩,
         (CreateAnimal zoo (bodyOf "Zebra" "Mammal" 4)).2) :=
  have h := CreateAnimal_then_Get zoo (bodyOf "Zebra" "Mammal" 4) ⟨0, "Zebra", "Mammal", 4⟩
    (by decide) (by decide) (by decide) (by decide) (by decide) (by decide) (by decide)
  ⟨by decide, by decide, h.1, h.2.2.2.1 "3" (by decide)⟩

/-- C2 as stated fails: a body with a fresh name of 51 letters decodes, yet
CreateAnimal answers 500, not 201, and adds no row, because the name does not
fit VARCHAR(50). -/
theorem CreateAnimal_then_Get_counterexample :
    zoo.wf ∧
    Decode (bodyOf (longText 51) "Mammal" 4) = some ⟨0, longText 51, "Mammal", 4⟩ ∧
    (∀ r ∈ zoo.rows, r.Name ≠ longText 51) ∧
    (CreateAnimal zoo (bodyOf (longText 51) "Mammal" 4)).1
      = httpError "Could not create animal" 500 ∧
    (CreateAnimal zoo (bodyOf (longText 51) "Mammal" 4)).2.rows = zoo.rows := by
  decide

/-! ## UpdateAnimal on an existing row -/

theorem execUpdate_existing (db : DB) (pid : String) (n : Int) (name cls : String) (legs : Int)
    (hid : int4in pid = .ok n) (hex : ∃ r ∈ db.rows, r.ID = n)
    (htext : textOk name ∧ textOk cls) (hfit : fitsVarchar name ∧ fitsVarchar cls)
    (hlegs : fitsInt4 legs)
    (hfree : ∀ r ∈ db.rows, r.ID ≠ n → r.Name ≠ toVarchar name) :
    execUpdate db name cls legs pid
      = (.ok (db.rows.countP (fun r => r.ID = n)),
         { db with rows := db.rows.map (fun r =>
            if r.ID = n then ⟨r.ID, toVarchar name, toVarchar cls, legs⟩ else r) }) := by
  have hany : db.rows.any (fun r => r.ID = n) = true := by
    rw [List.any_eq_true]
    obtain ⟨r, hr, hrn⟩ := hex
    exact ⟨r, hr, by simpa using hrn⟩
  have hclash : ¬ db.rows.any (fun r => r.ID ≠ n ∧ r.Name = toVarchar name) = true := by
    rw [List.any_eq_true]
    rintro ⟨r, hr, hrn⟩
    have h2 : r.ID ≠ n ∧ r.Name = toVarchar name := by simpa using hrn
    exact hfree r hr h2.1 h2.2
  unfold execUpdate
  rw [if_neg (not_not.mpr htext), if_neg (not_not.mpr hlegs)]
  simp only [hid]
  rw [if_neg (not_not.mpr hfit), if_neg (not_not.mpr hany), if_neg hclash]

/-- C5 (amended): for a path id the store reads as the id n of an existing row
and a decodable body whose name is not held by a row with another id, whose
name and class hold no NUL character and have at most 50 characters and whose
legs fit the 32-bit INT, UpdateAnimal answers 200 with an empty body; afterwards
every row with id n has the body name, class and legs and still id n (the id of
the body is not written), every other row is as before, and the number of rows
and the sequence are unchanged. -/
theorem UpdateAnimal_existing (db : DB) (pid : String) (n : Int) (body : Option JSON)
    (a : Animal) (hid : int4in pid = .ok n) (hdec : Decode body = some a)
    (hex : ∃ r ∈ db.rows, r.ID = n)
    (hfree : ∀ r ∈ db.rows, r.ID ≠ n → r.Name ≠ a.Name)
    (hname : textOk a.Name ∧ a.Name.length ≤ varcharLimit)
    (hcls : textOk a.Class ∧ a.Class.length ≤ varcharLimit)
    (hlegs : fitsInt4 a.Legs) :
    (UpdateAnimal db pid body).1 = ⟨200, .empty⟩ ∧
    (UpdateAnimal db pid body).2.rows
      = db.rows.map (fun r => if r.ID = n then ⟨n, a.Name, a.Class, a.Legs⟩ else r) ∧
    (UpdateAnimal db pid body).2.rows.length = db.rows.length ∧
    (⟨n, a.Name, a.Class, a.Legs⟩ ∈ (UpdateAnimal db pid body).2.rows) ∧
    (∀ r ∈ db.rows, r.ID ≠ n → r ∈ (UpdateAnimal db pid body).2.rows) ∧
    (∀ x ∈ (UpdateAnimal db pid body).2.rows,
      x = ⟨n, a.Name, a.Class, a.Legs⟩ ∨ (x ∈ db.rows ∧ x.ID ≠ n)) ∧
    (UpdateAnimal db pid body).2.lastVal = db.lastVal := by
  have hupd := execUpdate_existing db pid n a.Name a.Class a.Legs hid hex ⟨hname.1, hcls.1⟩
    ⟨fitsVarchar_of_le _ hname.2, fitsVarchar_of_le _ hcls.2⟩ hlegs
    (by rw [toVarchar_of_le _ hname.2]; exact hfree)
  rw [toVarchar_of_le _ hname.2, toVarchar_of_le _ hcls.2] at hupd
  have hc : db.rows.countP (fun r => r.ID = n) ≠ 0 := by
    rw [Ne, List.countP_eq_zero]
    obtain ⟨r, hr, hrn⟩ := hex
    intro h; exact (by simpa using h r hr : ¬ r.ID = n) hrn
  have hmap : db.rows.map (fun r => if r.ID = n then (⟨r.ID, a.Name, a.Class, a.Legs⟩ : Animal)
        else r)
      = db.rows.map (fun r => if r.ID = n then ⟨n, a.Name, a.Class, a.Legs⟩ else r) := by
    apply List.map_congr_left
    intro r _
    by_cases h : r.ID = n
    · simp [h]
    · simp [h]
  have key : UpdateAnimal db pid body
      = (⟨200, .empty⟩,
         ⟨db.rows.map (fun r => if r.ID = n then ⟨n, a.Name, a.Class, a.Legs⟩ else r),
          db.lastVal⟩) := by
    simp only [UpdateAnimal, hdec, hupd, hc, if_false, hmap]
  rw [key]
  refine ⟨rfl, rfl, by simp, ?_, ?_, ?_, rfl⟩
  · obtain ⟨r, hr, hrn⟩ := hex
    exact List.mem_map.mpr ⟨r, hr, by simp [hrn]⟩
  · intro r hr hrn
    exact List.mem_map.mpr ⟨r, hr, by simp [hrn]⟩
  · intro x hx
    obtain ⟨r, hr, hrx⟩ := List.mem_map.mp hx
    by_cases h : r.ID = n
    · left; rw [← hrx]; simp [h]
    · right
      have : x = r := by rw [← hrx]; simp [h]
      subst this
      exact ⟨hr, h⟩

theorem UpdateAnimal_existing_witness :
    int4in "1" = .ok 1 ∧ Decode (bodyOf "Lion" "Mammal" 3) = some ⟨0, "Lion", "Mammal", 3⟩ ∧
    UpdateAnimal zoo "1" (bodyOf "Lion" "Mammal" 3)
      = (⟨200, .empty⟩, ⟨[⟨1, "Lion", "Mammal", 3⟩, tiger], 2⟩) ∧
    (UpdateAnimal zoo "1" (bodyOf "Lion" "Mammal" 3)).2.rows
      = zoo.rows.map (fun r => if r.ID = 1 then ⟨1, "Lion", "Mammal", 3⟩ else r) :=
  ⟨by decide, by decide, by decide,
   (UpdateAnimal_existing zoo "1" 1 (bodyOf "Lion" "Mammal" 3) ⟨0, "Lion", "Mammal", 3⟩
     (by decide) (by decide) (by decide) (by decide) (by decide) (by decide) (by decide)).2.1⟩

/-- C5 as stated fails: row 1 exists and no other row holds the 51-letter name
of the body, yet UpdateAnimal answers 500, not 200, and writes nothing, because
the name does not fit VARCHAR(50). -/
theorem UpdateAnimal_existing_counterexample :
    int4in "1" = .ok 1 ∧
    Decode (bodyOf (longText 51) "Mammal" 4) = some ⟨0, longText 51, "Mammal", 4⟩ ∧
    (∃ r ∈ zoo.rows, r.ID = 1) ∧
    (∀ r ∈ zoo.rows, r.ID ≠ 1 → r.Name ≠ longText 51) ∧
    UpdateAnimal zoo "1" (bodyOf (longText 51) "Mammal" 4)
      = (httpError "Could not update animal" 500, zoo) := by
  decide

/-! ## Further rejections by the column types and the sequence -/

/-- A name holding a NUL character decodes but is refused by the store as a
text parameter: CreateAnimal answers 500 and the store is as before. -/
theorem CreateAnimal_nul_name :
    CreateAnimal zoo (bodyOf ⟨[Char.ofNat 97, Char.ofNat 0]⟩ "Mammal" 4)
      = (httpError "Could not create animal" 500, zoo) := by
  decide

/-- Once the sequence has handed out its largest value, every creation is
answered with 500. -/
theorem CreateAnimal_sequence_exhausted :
    DB.wf ⟨[], 2147483647⟩ ∧
    CreateAnimal ⟨[], 2147483647⟩ (bodyOf "Lion" "Mammal" 4)
      = (httpError "Could not create animal" 500, ⟨[], 2147483647⟩) := by
  decide

/-- A name of 50 letters followed by a blank is stored cut to 50 characters:
CreateAnimal answers 201 with the name of the body, and GetAnimalByID on the
new id answers with the stored, shorter name. -/
theorem CreateAnimal_trailing_blank :
    (CreateAnimal zoo (bodyOf ⟨(longText 50).data ++ [Char.ofNat 32]⟩ "Mammal" 4)).1
      = ⟨201, .animal ⟨3, ⟨(longText 50).data ++ [Char.ofNat 32]⟩, "Mammal", 4⟩⟩ ∧
    (GetAnimalByID
        (CreateAnimal zoo (bodyOf ⟨(longText 50).data ++ [Char.ofNat 32]⟩ "Mammal" 4)).2 "3").1
      = ⟨200, .animal ⟨3, longText 50, "Mammal", 4⟩⟩ := by
  decide

/-- A path id beyond the 32-bit range names no row, and the store refuses it:
UpdateAnimal and DeleteAnimal answer 500, GetAnimalByID answers 404. -/
theorem path_id_out_of_range :
    int4in "2147483648" = .error (.pq "22003") ∧
    UpdateAnimal zoo "2147483648" (bodyOf "Zebra" "Mammal" 4)
      = (httpError "Could not update animal" 500, zoo) ∧
    DeleteAnimal zoo "2147483648" = (httpError "Could not delete animal" 500, zoo) ∧
    GetAnimalByID zoo "2147483648" = (httpError "Animal not found" 404, zoo) := by
  decide

/-! ## The schema constraints are kept by every handler -/

theorem textOk_toVarchar (s : String) (h : textOk s) : textOk (toVarchar s) := by
  unfold textOk toVarchar at *
  intro hmem
  exact h (List.mem_of_mem_take hmem)

theorem length_toVarchar (s : String) : (toVarchar s).length ≤ varcharLimit := by
  show (s.data.take varcharLimit).length ≤ varcharLimit
  rw [List.length_take]
  exact Nat.min_le_left _ _

theorem wf_lastVal_succ (db : DB) (hwf : db.wf) (hseq : ¬ maxInt4 ≤ db.lastVal) :
    DB.wf { db with lastVal := db.lastVal + 1 } := by
  obtain ⟨h1, h2, _, h4⟩ := hwf
  refine ⟨h1, h2, ?_, ?_⟩
  · show db.lastVal + 1 ≤ maxInt4
    omega
  · intro r hr
    obtain ⟨a1, a2, a3⟩ := h4 r hr
    refine ⟨a1, ?_, a3⟩
    show r.ID ≤ ((db.lastVal + 1 : Nat) : Int)
    push_cast
    omega

theorem execInsert_wf (db : DB) (name cls : String) (legs : Int) (hwf : db.wf) :
    (execInsert db name cls legs).2.wf := by
  unfold execInsert
  by_cases h1 : textOk name ∧ textOk cls
  swap
  · rw [if_pos h1]; exact hwf
  rw [if_neg (not_not.mpr h1)]
  by_cases h2 : fitsInt4 legs
  swap
  · rw [if_pos h2]; exact hwf
  rw [if_neg (not_not.mpr h2)]
  by_cases h4 : fitsVarchar name ∧ fitsVarchar cls
  swap
  · rw [if_pos h4]; exact hwf
  rw [if_neg (not_not.mpr h4)]
  by_cases h3 : maxInt4 ≤ db.lastVal
  · rw [if_pos h3]; exact hwf
  rw [if_neg h3]
  simp only
  split
  · exact wf_lastVal_succ db hwf h3
  · rename_i h5
    have hnot : ∀ r ∈ db.rows,
        ¬ (r.ID = ((db.lastVal + 1 : Nat) : Int) ∨ r.Name = toVarchar name) := by
      intro r hr hor
      apply h5
      rw [List.any_eq_true]
      exact ⟨r, hr, by simpa using hor⟩
    have htext : textOk name ∧ textOk cls := h1
    have hlegs : fitsInt4 legs := h2
    obtain ⟨w1, w2, _, w4⟩ := hwf
    refine ⟨?_, ?_, ?_, ?_⟩
    · show ((db.rows ++ [_]).map (fun r : Animal => r.ID)).Nodup
      rw [List.map_append, List.nodup_append]
      refine ⟨w1, by simp, ?_⟩
      intro x hx hx2
      obtain ⟨r, hr, hrx⟩ := List.mem_map.mp hx
      have : x = ((db.lastVal + 1 : Nat) : Int) := by simpa using hx2
      exact hnot r hr (Or.inl (hrx.trans this))
    · show ((db.rows ++ [_]).map (fun r : Animal => r.Name)).Nodup
      rw [List.map_append, List.nodup_append]
      refine ⟨w2, by simp, ?_⟩
      intro x hx hx2
      obtain ⟨r, hr, hrx⟩ := List.mem_map.mp hx
      have : x = toVarchar name := by simpa using hx2
      exact hnot r hr (Or.inr (hrx.trans this))
    · show db.lastVal + 1 ≤ maxInt4
      omega
    · intro r hr
      have hr2 : r ∈ db.rows ++ [(⟨((db.lastVal + 1 : Nat) : Int), toVarchar name,
          toVarchar cls, legs⟩ : Animal)] := hr
      rcases List.mem_append.mp hr2 with hold | hnew
      · obtain ⟨a1, a2, a3⟩ := w4 r hold
        refine ⟨a1, ?_, a3⟩
        show r.ID ≤ ((db.lastVal + 1 : Nat) : Int)
        push_cast
        omega
      · have hreq : r = ⟨((db.lastVal + 1 : Nat) : Int), toVarchar name, toVarchar cls,
            legs⟩ := by simpa using hnew
        subst hreq
        refine ⟨?_, ?_, textOk_toVarchar _ htext.1, length_toVarchar _,
          textOk_toVarchar _ htext.2, length_toVarchar _, hlegs⟩
        · show (1 : Int) ≤ ((db.lastVal + 1 : Nat) : Int)
          push_cast
          omega
        · exact le_refl _

theorem nodup_names_update (n : Int) (name cls : String) (legs : Int) :
    ∀ l : List Animal, (l.map (fun r => r.ID)).Nodup → (l.map (fun r => r.Name)).Nodup →
      (∀ r ∈ l, r.ID ≠ n → r.Name ≠ name) →
      ((l.map (fun r => if r.ID = n then (⟨r.ID, name, cls, legs⟩ : Animal) else r)).map
        (fun r => r.Name)).Nodup := by
  intro l
  induction l with
  | nil => intro _ _ _; simp
  | cons x xs ih =>
    intro hid hnm hfree
    rw [List.map_cons, List.nodup_cons] at hid hnm
    have ihx := ih hid.2 hnm.2 (fun r hr => hfree r (List.mem_cons_of_mem _ hr))
    rw [List.map_cons, List.map_cons, List.nodup_cons]
    refine ⟨?_, ihx⟩
    intro hmem
    obtain ⟨y, hy, hyn⟩ := List.mem_map.mp hmem
    obtain ⟨z, hz, hzy⟩ := List.mem_map.mp hy
    have hzid : z.ID ≠ x.ID := fun he => hid.1 (he ▸ List.mem_map_of_mem (fun r => r.ID) hz)
    have hznm : z.Name ≠ x.Name :=
      fun he => hnm.1 (he ▸ List.mem_map_of_mem (fun r => r.Name) hz)
    by_cases hx : x.ID = n
    · have hzn : z.ID ≠ n := fun he => hzid (he.trans hx.symm)
      rw [if_neg hzn] at hzy
      subst hzy
      rw [if_pos hx] at hyn
      exact hfree z (List.mem_cons_of_mem _ hz) hzn hyn
    · rw [if_neg hx] at hyn
      by_cases hzn : z.ID = n
      · rw [if_pos hzn] at hzy
        subst hzy
        exact hfree x (List.mem_cons_self _ _) hx hyn.symm
      · rw [if_neg hzn] at hzy
        subst hzy
        exact hznm hyn

theorem execUpdate_wf (db : DB) (name cls : String) (legs : Int) (pid : String)
    (hwf : db.wf) : (execUpdate db name cls legs pid).2.wf := by
  unfold execUpdate
  by_cases h1 : textOk name ∧ textOk cls
  swap
  · rw [if_pos h1]; exact hwf
  rw [if_neg (not_not.mpr h1)]
  by_cases h2 : fitsInt4 legs
  swap
  · rw [if_pos h2]; exact hwf
  rw [if_neg (not_not.mpr h2)]
  cases hid : int4in pid with
    | error e => exact hwf
    | ok n =>
      simp only
      by_cases h4 : fitsVarchar name ∧ fitsVarchar cls
      swap
      · rw [if_pos h4]; exact hwf
      rw [if_neg (not_not.mpr h4)]
      split
      · exact hwf
      split
      · exact hwf
      · rename_i h5 h6
        have htext : textOk name ∧ textOk cls := h1
        have hlegs : fitsInt4 legs := h2
        have hfree : ∀ r ∈ db.rows, r.ID ≠ n → r.Name ≠ toVarchar name := by
          intro r hr hrn hnm
          apply h6
          rw [List.any_eq_true]
          exact ⟨r, hr, by simpa using ⟨hrn, hnm⟩⟩
        obtain ⟨w1, w2, w3, w4⟩ := hwf
        refine ⟨?_, nodup_names_update n _ _ _ db.rows w1 w2 hfree, w3, ?_⟩
        · show ((db.rows.map _).map (fun r : Animal => r.ID)).Nodup
          have : (db.rows.map (fun r => if r.ID = n then
              (⟨r.ID, toVarchar name, toVarchar cls, legs⟩ : Animal) else r)).map
              (fun r => r.ID) = db.rows.map (fun r => r.ID) := by
            rw [List.map_map]
            apply List.map_congr_left
            intro r _
            by_cases h : r.ID = n <;> simp [h]
          rw [this]; exact w1
        · intro r hr
          obtain ⟨z, hz, hzr⟩ := List.mem_map.mp hr
          by_cases hzn : z.ID = n
          · rw [if_pos hzn] at hzr
            subst hzr
            obtain ⟨a1, a2, _⟩ := w4 z hz
            exact ⟨a1, a2, textOk_toVarchar _ htext.1, length_toVarchar _,
              textOk_toVarchar _ htext.2, length_toVarchar _, hlegs⟩
          · rw [if_neg hzn] at hzr
            subst hzr
            exact w4 z hz

theorem execDelete_wf (db : DB) (pid : String) (hwf : db.wf) : (execDelete db pid).2.wf := by
  unfold execDelete
  cases hid : int4in pid with
  | error e => exact hwf
  | ok n =>
    obtain ⟨w1, w2, w3, w4⟩ := hwf
    have hsub : (db.rows.filter (fun r => ¬ r.ID = n)).Sublist db.rows := List.filter_sublist _
    refine ⟨w1.sublist (hsub.map _), w2.sublist (hsub.map _), w3, ?_⟩
    intro r hr
    exact w4 r (List.mem_of_mem_filter hr)

theorem CreateAnimal_snd (db : DB) (body : Option JSON) :
    (CreateAnimal db body).2 = db ∨
    ∃ a, Decode body = some a ∧
      (CreateAnimal db body).2 = (execInsert db a.Name a.Class a.Legs).2 := by
  unfold CreateAnimal
  cases hd : Decode body with
  | none => left; rfl
  | some a =>
    right
    refine ⟨a, rfl, ?_⟩
    simp only
    rcases hres : execInsert db a.Name a.Class a.Legs with ⟨res, db1⟩
    cases res with
    | ok id => rfl
    | error err =>
      cases err with
      | noRows => rfl
      | pq code =>
        simp only
        split_ifs <;> rfl

theorem UpdateAnimal_snd (db : DB) (pid : String) (body : Option JSON) :
    (UpdateAnimal db pid body).2 = db ∨
    ∃ a, Decode body = some a ∧
      (UpdateAnimal db pid body).2 = (execUpdate db a.Name a.Class a.Legs pid).2 := by
  unfold UpdateAnimal
  cases hd : Decode body with
  | none => left; rfl
  | some a =>
    right
    refine ⟨a, rfl, ?_⟩
    simp only
    rcases hres : execUpdate db a.Name a.Class a.Legs pid with ⟨res, db1⟩
    cases res with
    | error err => rfl
    | ok k =>
      simp only
      split_ifs <;> rfl

theorem DeleteAnimal_snd (db : DB) (pid : String) :
    (DeleteAnimal db pid).2 = (execDelete db pid).2 := by
  unfold DeleteAnimal
  rcases hres : execDelete db pid with ⟨res, db1⟩
  cases res with
  | error err => rfl
  | ok k =>
    simp only
    split_ifs <;> rfl

theorem GetAllAnimals_snd (db : DB) : (GetAllAnimals db).2 = db := by
  unfold GetAllAnimals queryAll
  simp only
  split_ifs <;> rfl

theorem GetAnimalByID_snd (db : DB) (pid : String) : (GetAnimalByID db pid).2 = db := by
  rw [GetAnimalByID_eq]

/-- Every handler keeps the schema constraints. -/
theorem route_wf (db : DB) (req : Request) (hwf : db.wf) : (route db req).2.wf := by
  cases req with
  | post body =>
    rcases CreateAnimal_snd db body with h | ⟨a, _, h⟩
    · show (CreateAnimal db body).2.wf
      rw [h]; exact hwf
    · show (CreateAnimal db body).2.wf
      rw [h]; exact execInsert_wf db _ _ _ hwf
  | getAll =>
    show (GetAllAnimals db).2.wf
    rw [GetAllAnimals_snd]; exact hwf
  | get id =>
    show (GetAnimalByID db id).2.wf
    rw [GetAnimalByID_snd]; exact hwf
  | put id body =>
    rcases UpdateAnimal_snd db id body with h | ⟨a, _, h⟩
    · show (UpdateAnimal db id body).2.wf
      rw [h]; exact hwf
    · show (UpdateAnimal db id body).2.wf
      rw [h]; exact execUpdate_wf db _ _ _ _ hwf
  | delete id =>
    show (DeleteAnimal db id).2.wf
    rw [DeleteAnimal_snd]; exact execDelete_wf db id hwf

/-- Every store state reached from the freshly created table by serving
requests satisfies the schema constraints. -/
theorem serveAll_wf (reqs : List Request) : (serveAll (migrateDB none) reqs).wf := by
  have hgen : ∀ (l : List Request) (db : DB), db.wf → (serveAll db l).wf := by
    intro l
    induction l with
    | nil => intro db h; exact h
    | cons req rest ih => intro db h; exact ih _ (route_wf db req h)
  exact hgen reqs _ (by decide)

end AnekaZoo
